import Mathlib

/-!
# Verification of the IVR prompt-extraction engine

Shallow embedding of `extract_prompts` from `streamlit_app.py` and of the
spec-level classification layer, together with proofs of the specification
claims about it.

The XML document tree produced by `xml.etree.ElementTree.fromstring` is
modelled by the mutually inductive types `Element` / `ElementList` (a rose
tree; the mutual presentation keeps every function structurally recursive and
hence kernel-reducible).  An element carries its tag, its text (Python's
`Element.text`, `None` for an empty element, modelled as `Option String`) and
its list of child elements.  `ET.fromstring` itself is modelled by taking the
already-parsed tree as input: `extract_prompts` below receives
`Option Element`, where `none` stands for input text that is not well-formed
XML (on which `ET.fromstring` raises `ParseError` before any record is built).

Python string operations are re-implemented on `List Char` so that concrete
runs reduce inside the kernel: `pyLower` is character-wise lowercasing
(ASCII, which is exact for the only comparison the code performs, against the
ASCII literal `"true"`), and `strLe` is code-point lexicographic order,
exactly Python's `str` comparison used by `sorted(..., key=...)`.
-/

mutual
inductive Element where
  | mk (tag : String) (text : Option String) (children : ElementList)

inductive ElementList where
  | nil
  | cons (head : Element) (tail : ElementList)
end

def ElementList.toList : ElementList → List Element
  | .nil => []
  | .cons c cs => c :: cs.toList

def elist : List Element → ElementList
  | [] => .nil
  | c :: cs => .cons c (elist cs)

/-- Convenience constructor for concrete documents. -/
def el (tag : String) (text : Option String) (children : List Element) : Element :=
  .mk tag text (elist children)

def Element.tag : Element → String
  | .mk t _ _ => t

def Element.text : Element → Option String
  | .mk _ x _ => x

def Element.childList : Element → List Element
  | .mk _ _ cs => cs.toList

mutual
/-- All strict descendants of an element in document (preorder) order: the
    node set traversed by ElementTree's `.//` axis. -/
def Element.descendants : Element → List Element
  | .mk _ _ cs => ElementList.desc cs

def ElementList.desc : ElementList → List Element
  | .nil => []
  | .cons c cs => c :: c.descendants ++ cs.desc
end

/-- `elem.find(tag)`: first direct child with the given tag, if any. -/
def Element.findChild (e : Element) (t : String) : Option Element :=
  e.childList.find? (fun c => c.tag == t)

/-- `elem.findall('.//tag')`: every strict descendant with the given tag, in
    document order. -/
def Element.findallDesc (e : Element) (t : String) : List Element :=
  e.descendants.filter (fun d => d.tag == t)

/-- One `/tag` path step of `findall`: the direct children with that tag. -/
def childrenTag (e : Element) (t : String) : List Element :=
  e.childList.filter (fun c => c.tag == t)

/-- Python-level string lowercasing (`str.lower`), character-wise. -/
def pyLower (s : String) : String :=
  ⟨s.data.map Char.toLower⟩

/-- Code-point lexicographic `≤` on character lists: Python's `str` order. -/
def charListLe : List Char → List Char → Bool
  | [], _ => true
  | _ :: _, [] => false
  | a :: as, b :: bs => if a < b then true else if b < a then false else charListLe as bs

/-- Python's `s <= t` on strings. -/
def strLe (s t : String) : Bool :=
  charListLe s.data t.data

/-- The exceptions `extract_prompts` can raise: `ET.ParseError` from
    `ET.fromstring`, `AttributeError` from `enabled.text.lower()` when the
    `enabled` element has no text, and `TypeError` from `sorted` when record
    names of different runtime types (`None` vs `str`) are compared. -/
inductive PyErr where
  | parseError
  | attributeError
  | typeError
deriving DecidableEq, Repr

def isOkE {α : Type} : Except PyErr α → Bool
  | .ok _ => true
  | .error _ => false

/-- One output record of `extract_prompts`: the dict
    `{'ID': ..., 'Name': ..., 'Module': ..., 'Enabled': ...}`.  The `Enabled`
    value in Python is either a `bool` (announcement entry found) or the
    string `'N/A'` (no entry), modelled as `Option Bool` with `none = 'N/A'`. -/
structure PromptRec where
  ID : Option String
  Name : Option String
  Module : Option String
  Enabled : Option Bool
deriving DecidableEq, Repr

/-- The boolean stored for an announcement block:
    `enabled.text.lower() == 'true'`. -/
def annFlag (s : String) : Bool :=
  pyLower s == "true"

/-- Processing of one `announcements` block (lines 15-23 of the source):
    yields `some (prompt-id-text, flag)` when the block has `enabled` and
    `prompt` children and the prompt has an `id` child; `none` when the block
    is skipped; raises `AttributeError` when the `enabled` element has no
    text. -/
def annEntry (a : Element) : Except PyErr (Option (Option String × Bool)) :=
  match a.findChild "enabled", a.findChild "prompt" with
  | some en, some pr =>
    match pr.findChild "id" with
    | some pid =>
      match en.text with
      | some s => .ok (some (pid.text, annFlag s))
      | none => .error .attributeError
    | none => .ok none
  | _, _ => .ok none

/-- The dict-building loop over all announcement blocks, threading the map
    `announcement_prompts` (keyed by `prompt_id.text`); dict assignment is
    overwrite-on-insert, i.e. last-write-wins. -/
def annScanList : List Element → (Option String → Option Bool) →
    Except PyErr (Option String → Option Bool)
  | [], m => .ok m
  | a :: rest, m =>
    match annEntry a with
    | .error e => .error e
    | .ok none => annScanList rest m
    | .ok (some (k, v)) => annScanList rest (fun x => if x = k then some v else m x)

/-- `root.findall('.//announcements')`. -/
def annBlocks (root : Element) : List Element :=
  root.findallDesc "announcements"

/-- `module.findall('.//filePrompt/promptData/prompt')`. -/
def locPattern1 (m : Element) : List Element :=
  (m.findallDesc "filePrompt").flatMap (fun fp =>
    (childrenTag fp "promptData").flatMap (fun pd => childrenTag pd "prompt"))

/-- `module.findall('.//announcements/prompt')`. -/
def locPattern2 (m : Element) : List Element :=
  (m.findallDesc "announcements").flatMap (fun a => childrenTag a "prompt")

/-- `module.findall('.//prompt/filePrompt/promptData/prompt')`. -/
def locPattern3 (m : Element) : List Element :=
  (m.findallDesc "prompt").flatMap (fun pr =>
    (childrenTag pr "filePrompt").flatMap (fun fp =>
      (childrenTag fp "promptData").flatMap (fun pd => childrenTag pd "prompt")))

/-- `module.findall('.//compoundPrompt/filePrompt/promptData/prompt')`. -/
def locPattern4 (m : Element) : List Element :=
  (m.findallDesc "compoundPrompt").flatMap (fun cp =>
    (childrenTag cp "filePrompt").flatMap (fun fp =>
      (childrenTag fp "promptData").flatMap (fun pd => childrenTag pd "prompt")))

/-- `module.findall('.//promptData/prompt')`. -/
def locPattern5 (m : Element) : List Element :=
  (m.findallDesc "promptData").flatMap (fun pd => childrenTag pd "prompt")

/-- The Node Locator: the five location patterns tried in source order,
    results concatenated (the loop `for location in prompt_locations`). -/
def locatePrompts (m : Element) : List Element :=
  locPattern1 m ++ locPattern2 m ++ locPattern3 m ++ locPattern4 m ++ locPattern5 m

/-- Record construction for one located prompt element (lines 42-52): skipped
    (`none`) unless the element has both an `id` and a `name` child; the
    `Enabled` field is the announcement-map lookup
    `announcement_prompts.get(prompt_id.text, {}).get('enabled', 'N/A')`. -/
def mkRecord (moduleNameText : Option String) (annM : Option String → Option Bool)
    (p : Element) : Option PromptRec :=
  match p.findChild "id", p.findChild "name" with
  | some i, some n => some ⟨i.text, n.text, moduleNameText, annM i.text⟩
  | _, _ => none

/-- All records contributed by one module (lines 26-52): nothing unless the
    module has a `moduleName` child; otherwise one record per located prompt
    element that has both `id` and `name` children. -/
def moduleRecords (annM : Option String → Option Bool) (m : Element) : List PromptRec :=
  match m.findChild "moduleName" with
  | none => []
  | some mn => (locatePrompts m).filterMap (mkRecord mn.text annM)

/-- `root.findall('.//modules/*')`: the children of every `modules` element,
    in document order. -/
def modulesOf (root : Element) : List Element :=
  (root.findallDesc "modules").flatMap Element.childList

/-- The full pre-deduplication classified stream `prompts_list`. -/
def promptsList (root : Element) (annM : Option String → Option Bool) : List PromptRec :=
  (modulesOf root).flatMap (moduleRecords annM)

/-- Sort key order on the `Name` field.  On records whose names are all
    `some` (the only case in which Python's `sorted` returns instead of
    raising `TypeError`) this is exactly Python's string order; it is extended
    to a total preorder on `Option String` so that it is everywhere
    transitive and total. -/
def keyLe : Option String → Option String → Bool
  | none, _ => true
  | some _, none => false
  | some x, some y => strLe x y

def recLe (a b : PromptRec) : Bool :=
  keyLe a.Name b.Name

def insertRec (r : PromptRec) : List PromptRec → List PromptRec
  | [] => [r]
  | s :: rest => if recLe r s then r :: s :: rest else s :: insertRec r rest

/-- Stable insertion sort by `Name`.  Python's `sorted` is a stable sort with
    respect to the key order, and a stable sort result is unique, so this is
    observationally `sorted(prompts_list, key=lambda x: x['Name'])` whenever
    the latter returns (its sortedness, stability and permutation properties
    are proved below). -/
def sortRecs : List PromptRec → List PromptRec
  | [] => []
  | r :: rest => insertRec r (sortRecs rest)

/-- The `sorted` call of line 57.  With at most one record no comparison is
    performed; otherwise comparing a `None` name with any name (or another
    `None`) raises `TypeError`, so a mixed list of length ≥ 2 always
    raises. -/
def sortStep (l : List PromptRec) : Except PyErr (List PromptRec) :=
  if l.length ≤ 1 ∨ l.all (fun r => r.Name.isSome) = true then .ok (sortRecs l)
  else .error .typeError

/-- The dedup loop of lines 55-61: keep the first record of each `ID`,
    threading the `seen_ids` set. -/
def dedupLoop : List PromptRec → List (Option String) → List PromptRec
  | [], _ => []
  | r :: rs, seen =>
    if seen.contains r.ID then dedupLoop rs seen
    else r :: dedupLoop rs (r.ID :: seen)

/-- `extract_prompts` on an already-parsed tree (lines 11-62). -/
def extractFromTree (root : Element) : Except PyErr (List PromptRec) :=
  match annScanList (annBlocks root) (fun _ => none) with
  | .error e => .error e
  | .ok annM =>
    match sortStep (promptsList root annM) with
    | .error e => .error e
    | .ok srt => .ok (dedupLoop srt [])

/-- `extract_prompts` (lines 8-62); `none` models input text on which
    `ET.fromstring` raises `ParseError`. -/
def extract_prompts : Option Element → Except PyErr (List PromptRec)
  | none => .error .parseError
  | some root => extractFromTree root

/-- The classified stream actually produced by a document: the announcement
    scan followed by the module scan. -/
def classifiedStream (root : Element) : Except PyErr (List PromptRec) :=
  match annScanList (annBlocks root) (fun _ => none) with
  | .error e => .error e
  | .ok annM => .ok (promptsList root annM)

/-- Whether the document contains any instance of the five recognized prompt
    nesting shapes (which the spec defines relative to a flow module). -/
def containsPromptShape (root : Element) : Bool :=
  (modulesOf root).any (fun m => !(locatePrompts m).isEmpty)

/-- The five nesting shapes as structural predicates relative to a module,
    stated independently of path evaluation (used to prove the locator
    complete). -/
def isShape1 (m p : Element) : Prop :=
  ∃ fp ∈ m.descendants, fp.tag = "filePrompt" ∧
    ∃ pd ∈ fp.childList, pd.tag = "promptData" ∧ p ∈ pd.childList ∧ p.tag = "prompt"

def isShape2 (m p : Element) : Prop :=
  ∃ a ∈ m.descendants, a.tag = "announcements" ∧ p ∈ a.childList ∧ p.tag = "prompt"

def isShape3 (m p : Element) : Prop :=
  ∃ pr ∈ m.descendants, pr.tag = "prompt" ∧
    ∃ fp ∈ pr.childList, fp.tag = "filePrompt" ∧
      ∃ pd ∈ fp.childList, pd.tag = "promptData" ∧ p ∈ pd.childList ∧ p.tag = "prompt"

def isShape4 (m p : Element) : Prop :=
  ∃ cp ∈ m.descendants, cp.tag = "compoundPrompt" ∧
    ∃ fp ∈ cp.childList, fp.tag = "filePrompt" ∧
      ∃ pd ∈ fp.childList, pd.tag = "promptData" ∧ p ∈ pd.childList ∧ p.tag = "prompt"

def isShape5 (m p : Element) : Prop :=
  ∃ pd ∈ m.descendants, pd.tag = "promptData" ∧ p ∈ pd.childList ∧ p.tag = "prompt"

/-- Modelled from the spec (§3, §4.3): the Module Connectivity Analyzer is
    absent from `src/streamlit_app.py` (this variant records `'N/A'` instead
    of a connectivity-based status); a module's outbound references are the
    identifiers drawn from its three connection kinds. -/
structure ModuleConn where
  module_id : String
  ascendants : List String
  exceptionalDescendant : List String
  singleDescendant : List String

/-- Modelled from the spec (§3): the ordered outbound reference sequence. -/
def outboundRefs (mc : ModuleConn) : List String :=
  mc.ascendants ++ mc.exceptionalDescendant ++ mc.singleDescendant

/-- Modelled from the spec (§4.3): disconnected iff at least one outbound
    reference and every outbound reference equals the module's own id. -/
def isDisconnected (mc : ModuleConn) : Bool :=
  !(outboundRefs mc).isEmpty && (outboundRefs mc).all (fun r => r == mc.module_id)

inductive PromptType where
  | Announcement
  | Play
deriving DecidableEq, Repr

inductive PromptStatus where
  | Enabled
  | Disabled
  | InUse
  | NotInUse
deriving DecidableEq, Repr

/-- Modelled from the spec (§4.4): the Prompt Classifier's type/status
    assignment is absent from `src/streamlit_app.py` (only the announcement
    lookup feeding its first argument exists there, line 46): announcement
    entry present → `Announcement` with `Enabled`/`Disabled` from the flag;
    absent → `Play` with `InUse`/`NotInUse` from module connectivity. -/
def classifyPrompt (annEntry : Option Bool) (disconnected : Bool) :
    PromptType × PromptStatus :=
  match annEntry with
  | some f => (.Announcement, if f then .Enabled else .Disabled)
  | none => (.Play, if disconnected then .NotInUse else .InUse)

/-- Modelled from the spec (§6): the derived audio-filename convention
    `"<prompt_name>.wav"`, absent from `src/streamlit_app.py`. -/
def derived_audio_filename (prompt_name : String) : String :=
  prompt_name ++ ".wav"

/-- The derived filename of an output record (its `Name` text, when any,
    under the fixed suffix convention). -/
def recFilename (r : PromptRec) : Option String :=
  r.Name.map derived_audio_filename

/-- Concrete module: name `Welcome`, a `filePrompt/promptData/prompt`
    (id 9, name `Greeting`) and an `announcements/prompt` (id 7, name `Bye`). -/
def wmodA : Element :=
  el "menu" none [
    el "moduleName" (some "Welcome") [],
    el "filePrompt" none [
      el "promptData" none [
        el "prompt" none [ el "id" (some "9") [], el "name" (some "Greeting") [] ] ] ],
    el "announcements" none [
      el "prompt" none [ el "id" (some "7") [], el "name" (some "Bye") [] ] ] ]

/-- Concrete document: two top-level announcement blocks for prompt id 9
    (`False` then `TRUE`), and one module `wmodA`. -/
def wdocA : Element :=
  el "ivrScript" none [
    el "announcements" none [
      el "enabled" (some "False") [],
      el "prompt" none [ el "id" (some "9") [] ] ],
    el "announcements" none [
      el "enabled" (some "TRUE") [],
      el "prompt" none [ el "id" (some "9") [] ] ],
    el "modules" none [ wmodA ] ]

/-- The pre-deduplication classified stream of `wdocA`. -/
def wclsA : List PromptRec :=
  [⟨some "9", some "Greeting", some "Welcome", some true⟩,
   ⟨some "7", some "Bye", some "Welcome", none⟩,
   ⟨some "9", some "Greeting", some "Welcome", some true⟩]

/-- The deduplicated output of `wdocA`. -/
def woutA : List PromptRec :=
  [⟨some "7", some "Bye", some "Welcome", none⟩,
   ⟨some "9", some "Greeting", some "Welcome", some true⟩]

/-- Well-formed document with none of the five prompt shapes and an
    announcement block whose `enabled` element has no text: the announcement
    scan raises `AttributeError` on it. -/
def exDoc7 : Element :=
  el "ivrScript" none [
    el "announcements" none [
      el "enabled" none [],
      el "prompt" none [ el "id" (some "1") [] ] ] ]

/-- Well-formed flow document whose module carries an announcement block with
    an empty `enabled` element: extraction raises `AttributeError`. -/
def exDoc9 : Element :=
  el "ivrScript" none [
    el "modules" none [
      el "menu" none [
        el "moduleName" (some "Main") [],
        el "announcements" none [
          el "enabled" none [],
          el "prompt" none [ el "id" (some "5") [], el "name" (some "Hi") [] ] ] ] ] ]

/-- Well-formed document with no prompt shape at all and a benign
    announcement scan. -/
def wdocC : Element :=
  el "ivrScript" none [
    el "modules" none [
      el "menu" none [ el "moduleName" (some "W") [] ] ] ]

theorem charListLe_refl (l : List Char) : charListLe l l = true := by
  induction l with
  | nil => rfl
  | cons a as ih => simp [charListLe, lt_irrefl, ih]

theorem charListLe_total (l₁ l₂ : List Char) :
    charListLe l₁ l₂ = true ∨ charListLe l₂ l₁ = true := by
  induction l₁ generalizing l₂ with
  | nil => left; rfl
  | cons a as ih =>
    cases l₂ with
    | nil => right; rfl
    | cons b bs =>
      by_cases hab : a < b
      · left; simp [charListLe, hab]
      · by_cases hba : b < a
        · right; simp [charListLe, hba]
        · rcases ih bs with h | h
          · left; simp [charListLe, hab, hba, h]
          · right; simp [charListLe, hab, hba, h]

theorem charListLe_trans : ∀ l₁ l₂ l₃ : List Char, charListLe l₁ l₂ = true →
    charListLe l₂ l₃ = true → charListLe l₁ l₃ = true
  | [], _, _, _, _ => rfl
  | _ :: _, [], _, h₁, _ => by simp [charListLe] at h₁
  | _ :: _, _ :: _, [], _, h₂ => by simp [charListLe] at h₂
  | a :: as, b :: bs, c :: cs, h₁, h₂ => by
    simp only [charListLe] at h₁ h₂ ⊢
    by_cases hab : a < b
    · by_cases hbc : b < c
      · simp [lt_trans hab hbc]
      · by_cases hcb : c < b
        · rw [if_neg hbc, if_pos hcb] at h₂; exact absurd h₂ (by simp)
        · have hbceq : b = c := le_antisymm (not_lt.mp hcb) (not_lt.mp hbc)
          subst hbceq; simp [hab]
    · by_cases hba : b < a
      · rw [if_neg hab, if_pos hba] at h₁; exact absurd h₁ (by simp)
      · have habeq : a = b := le_antisymm (not_lt.mp hba) (not_lt.mp hab)
        subst habeq
        by_cases hac : a < c
        · simp [hac]
        · by_cases hca : c < a
          · rw [if_neg hac, if_pos hca] at h₂; exact absurd h₂ (by simp)
          · rw [if_neg hab, if_neg hba] at h₁
            rw [if_neg hac, if_neg hca] at h₂
            rw [if_neg hac, if_neg hca]
            exact charListLe_trans as bs cs h₁ h₂

theorem strLe_refl (s : String) : strLe s s = true :=
  charListLe_refl _

theorem strLe_total (s t : String) : strLe s t = true ∨ strLe t s = true :=
  charListLe_total _ _

theorem strLe_trans {s t u : String} (h₁ : strLe s t = true) (h₂ : strLe t u = true) :
    strLe s u = true :=
  charListLe_trans _ _ _ h₁ h₂

theorem keyLe_refl (k : Option String) : keyLe k k = true := by
  cases k with
  | none => rfl
  | some x => exact strLe_refl x

theorem keyLe_total (k₁ k₂ : Option String) : keyLe k₁ k₂ = true ∨ keyLe k₂ k₁ = true := by
  cases k₁ with
  | none => left; rfl
  | some x =>
    cases k₂ with
    | none => right; rfl
    | some y => exact strLe_total x y

theorem keyLe_trans : ∀ {k₁ k₂ k₃ : Option String}, keyLe k₁ k₂ = true →
    keyLe k₂ k₃ = true → keyLe k₁ k₃ = true := by
  intro k₁ k₂ k₃ h₁ h₂
  cases k₁ with
  | none => rfl
  | some x =>
    cases k₂ with
    | none => exact absurd h₁ (by simp [keyLe])
    | some y =>
      cases k₃ with
      | none => exact absurd h₂ (by simp [keyLe])
      | some z => exact strLe_trans h₁ h₂

theorem recLe_total (a b : PromptRec) : recLe a b = true ∨ recLe b a = true :=
  keyLe_total a.Name b.Name

theorem recLe_trans {a b c : PromptRec} (h₁ : recLe a b = true) (h₂ : recLe b c = true) :
    recLe a c = true :=
  keyLe_trans h₁ h₂

theorem recLe_of_eq_name {a b : PromptRec} (h : a.Name = b.Name) : recLe a b = true := by
  unfold recLe
  rw [h]
  exact keyLe_refl _

theorem insertRec_perm (r : PromptRec) (l : List PromptRec) :
    (insertRec r l).Perm (r :: l) := by
  induction l with
  | nil => exact List.Perm.refl _
  | cons s rest ih =>
    by_cases h : recLe r s = true
    · simp only [insertRec]
      rw [if_pos h]
    · simp only [insertRec]
      rw [if_neg h]
      exact (ih.cons s).trans (List.Perm.swap r s rest)

theorem sortRecs_perm (l : List PromptRec) : (sortRecs l).Perm l := by
  induction l with
  | nil => exact List.Perm.refl _
  | cons r rest ih => exact (insertRec_perm r (sortRecs rest)).trans (ih.cons r)

theorem insertRec_split (r : PromptRec) (l : List PromptRec) :
    ∃ l₁ l₂, insertRec r l = l₁ ++ r :: l₂ ∧ l = l₁ ++ l₂ ∧ ∀ s ∈ l₁, recLe r s = false := by
  induction l with
  | nil => exact ⟨[], [], rfl, rfl, by simp⟩
  | cons s rest ih =>
    by_cases h : recLe r s = true
    · refine ⟨[], s :: rest, ?_, rfl, by simp⟩
      simp only [insertRec]
      rw [if_pos h]
      rfl
    · obtain ⟨l₁, l₂, he, hl, hf⟩ := ih
      refine ⟨s :: l₁, l₂, ?_, ?_, ?_⟩
      · simp only [insertRec]
        rw [if_neg h, he]
        rfl
      · rw [List.cons_append, hl]
      · intro x hx
        rcases List.mem_cons.mp hx with rfl | hx'
        · exact Bool.not_eq_true _ ▸ (by simpa using h)
        · exact hf x hx'

theorem insertRec_pairwise (r : PromptRec) (l : List PromptRec)
    (h : l.Pairwise (fun a b => recLe a b = true)) :
    (insertRec r l).Pairwise (fun a b => recLe a b = true) := by
  induction l with
  | nil => simp [insertRec]
  | cons s rest ih =>
    rcases List.pairwise_cons.mp h with ⟨hs, hrest⟩
    by_cases hc : recLe r s = true
    · simp only [insertRec]
      rw [if_pos hc]
      refine List.pairwise_cons.mpr ⟨?_, h⟩
      intro b hb
      rcases List.mem_cons.mp hb with rfl | hb'
      · exact hc
      · exact recLe_trans hc (hs b hb')
    · have hsr : recLe s r = true := by
        rcases recLe_total r s with h' | h'
        · exact absurd h' hc
        · exact h'
      simp only [insertRec]
      rw [if_neg hc]
      refine List.pairwise_cons.mpr ⟨?_, ih hrest⟩
      intro b hb
      have hb2 : b ∈ r :: rest := (insertRec_perm r rest).mem_iff.mp hb
      rcases List.mem_cons.mp hb2 with rfl | hb'
      · exact hsr
      · exact hs b hb'

theorem sortRecs_pairwise (l : List PromptRec) :
    (sortRecs l).Pairwise (fun a b => recLe a b = true) := by
  induction l with
  | nil => simp [sortRecs]
  | cons r rest ih => exact insertRec_pairwise r (sortRecs rest) ih

theorem sortRecs_filter_name (nm : Option String) (l : List PromptRec) :
    (sortRecs l).filter (fun s => s.Name == nm) = l.filter (fun s => s.Name == nm) := by
  induction l with
  | nil => rfl
  | cons r rest ih =>
    obtain ⟨l₁, l₂, he, hl, hf⟩ := insertRec_split r (sortRecs rest)
    have hsort : sortRecs (r :: rest) = l₁ ++ r :: l₂ := he
    by_cases hr : (r.Name == nm) = true
    · have hl₁ : ∀ x ∈ l₁, (x.Name == nm) = false := by
        intro x hx
        by_cases hx' : (x.Name == nm) = true
        · have hxr : r.Name = x.Name := by
            have h1 : r.Name = nm := by simpa using hr
            have h2 : x.Name = nm := by simpa using hx'
            rw [h1, h2]
          have : recLe r x = true := recLe_of_eq_name hxr
          rw [hf x hx] at this
          exact absurd this (by simp)
        · simpa using hx'
      have hfl₁ : l₁.filter (fun s => s.Name == nm) = [] :=
        List.filter_eq_nil_iff.mpr (by
          intro a ha
          simp [hl₁ a ha])
      calc (sortRecs (r :: rest)).filter (fun s => s.Name == nm)
          = (l₁ ++ r :: l₂).filter (fun s => s.Name == nm) := by rw [hsort]
        _ = r :: l₂.filter (fun s => s.Name == nm) := by
            simp [List.filter_append, List.filter_cons, hr, hfl₁]
        _ = r :: (l₁ ++ l₂).filter (fun s => s.Name == nm) := by
            simp [List.filter_append, hfl₁]
        _ = r :: (sortRecs rest).filter (fun s => s.Name == nm) := by rw [hl]
        _ = r :: rest.filter (fun s => s.Name == nm) := by rw [ih]
        _ = (r :: rest).filter (fun s => s.Name == nm) := by
            simp [List.filter_cons, hr]
    · have hrf : (r.Name == nm) = false := by simpa using hr
      calc (sortRecs (r :: rest)).filter (fun s => s.Name == nm)
          = (l₁ ++ r :: l₂).filter (fun s => s.Name == nm) := by rw [hsort]
        _ = l₁.filter (fun s => s.Name == nm) ++ l₂.filter (fun s => s.Name == nm) := by
            simp [List.filter_append, List.filter_cons, hrf]
        _ = (l₁ ++ l₂).filter (fun s => s.Name == nm) := by rw [List.filter_append]
        _ = (sortRecs rest).filter (fun s => s.Name == nm) := by rw [hl]
        _ = rest.filter (fun s => s.Name == nm) := by rw [ih]
        _ = (r :: rest).filter (fun s => s.Name == nm) := by
            simp [List.filter_cons, hrf]

theorem dedupLoop_sublist (l : List PromptRec) (seen : List (Option String)) :
    List.Sublist (dedupLoop l seen) l := by
  induction l generalizing seen with
  | nil => simp [dedupLoop]
  | cons r rs ih =>
    by_cases h : seen.contains r.ID = true
    · simp only [dedupLoop]
      rw [if_pos h]
      exact (ih seen).trans (List.sublist_cons_self r rs)
    · simp only [dedupLoop]
      rw [if_neg h]
      exact (ih (r.ID :: seen)).cons₂ r

theorem dedupLoop_mem (l : List PromptRec) (seen : List (Option String)) (r : PromptRec)
    (h : r ∈ dedupLoop l seen) :
    seen.contains r.ID = false ∧
      ∃ l₁ l₂, l = l₁ ++ r :: l₂ ∧ ∀ s ∈ l₁, s.ID ≠ r.ID := by
  induction l generalizing seen with
  | nil => simp [dedupLoop] at h
  | cons x rs ih =>
    by_cases hc : seen.contains x.ID = true
    · rw [show dedupLoop (x :: rs) seen = dedupLoop rs seen by
        simp only [dedupLoop]; rw [if_pos hc]] at h
      obtain ⟨hseen, l₁, l₂, hsplit, hne⟩ := ih seen h
      refine ⟨hseen, x :: l₁, l₂, by rw [hsplit]; rfl, ?_⟩
      intro s hs
      rcases List.mem_cons.mp hs with rfl | hs'
      · intro hEq
        rw [hEq] at hc
        rw [hc] at hseen
        exact absurd hseen (by simp)
      · exact hne s hs'
    · rw [show dedupLoop (x :: rs) seen = x :: dedupLoop rs (x.ID :: seen) by
        simp only [dedupLoop]; rw [if_neg hc]] at h
      rcases List.mem_cons.mp h with rfl | hmem
      · exact ⟨by simpa using hc, [], rs, rfl, by simp⟩
      · obtain ⟨hseen, l₁, l₂, hsplit, hne⟩ := ih (x.ID :: seen) hmem
        have hcons : (r.ID == x.ID) = false ∧ seen.contains r.ID = false := by
          have : (x.ID :: seen).contains r.ID = ((r.ID == x.ID) || seen.contains r.ID) := rfl
          rw [this] at hseen
          exact ⟨(Bool.or_eq_false_iff.mp hseen).1, (Bool.or_eq_false_iff.mp hseen).2⟩
      
        refine ⟨hcons.2, x :: l₁, l₂, by rw [hsplit]; rfl, ?_⟩
        intro s hs
        rcases List.mem_cons.mp hs with rfl | hs'
        · intro hEq
          have := hcons.1
          rw [hEq] at this
          simp at this
        · exact hne s hs'

theorem dedupLoop_pairwise (l : List PromptRec) (seen : List (Option String)) :
    (dedupLoop l seen).Pairwise (fun a b => a.ID ≠ b.ID) := by
  induction l generalizing seen with
  | nil => simp [dedupLoop]
  | cons x rs ih =>
    by_cases hc : seen.contains x.ID = true
    · rw [show dedupLoop (x :: rs) seen = dedupLoop rs seen by
        simp only [dedupLoop]; rw [if_pos hc]]
      exact ih seen
    · rw [show dedupLoop (x :: rs) seen = x :: dedupLoop rs (x.ID :: seen) by
        simp only [dedupLoop]; rw [if_neg hc]]
      refine List.pairwise_cons.mpr ⟨?_, ih (x.ID :: seen)⟩
      intro b hb
      have hseen := (dedupLoop_mem rs (x.ID :: seen) b hb).1
      have : (b.ID == x.ID) = false := by
        have hrw : (x.ID :: seen).contains b.ID = ((b.ID == x.ID) || seen.contains b.ID) := rfl
        rw [hrw] at hseen
        exact (Bool.or_eq_false_iff.mp hseen).1
      intro hEq
      rw [hEq] at this
      simp at this

theorem extract_ok_elim {root : Element} {out : List PromptRec}
    (h : extract_prompts (some root) = .ok out) :
    ∃ annM, annScanList (annBlocks root) (fun _ => none) = .ok annM ∧
      out = dedupLoop (sortRecs (promptsList root annM)) [] := by
  simp only [extract_prompts] at h
  unfold extractFromTree at h
  cases hscan : annScanList (annBlocks root) (fun _ => none) with
  | error e => rw [hscan] at h; simp at h
  | ok annM =>
    rw [hscan] at h
    dsimp only at h
    unfold sortStep at h
    by_cases hc : (promptsList root annM).length ≤ 1 ∨
        (promptsList root annM).all (fun r => r.Name.isSome) = true
    · rw [if_pos hc] at h
      simp only [Except.ok.injEq] at h
      exact ⟨annM, rfl, h.symm⟩
    · rw [if_neg hc] at h
      simp at h

theorem annScanList_append (xs ys : List Element) (m : Option String → Option Bool) :
    annScanList (xs ++ ys) m =
      match annScanList xs m with
      | .error e => .error e
      | .ok m' => annScanList ys m' := by
  induction xs generalizing m with
  | nil => rfl
  | cons a rest ih =>
    simp only [List.cons_append, annScanList]
    cases annEntry a with
    | error e => rfl
    | ok entry =>
      cases entry with
      | none => exact ih m
      | some kv => exact ih _

theorem annScanList_agree (bs : List Element) (m : Option String → Option Bool)
    (M : Option String → Option Bool) (k : Option String)
    (hok : annScanList bs m = .ok M)
    (hnone : ∀ b ∈ bs, ∀ v, annEntry b ≠ .ok (some (k, v))) :
    M k = m k := by
  induction bs generalizing m with
  | nil =>
    simp only [annScanList, Except.ok.injEq] at hok
    rw [← hok]
  | cons a rest ih =>
    simp only [annScanList] at hok
    cases ha : annEntry a with
    | error e => rw [ha] at hok; simp at hok
    | ok entry =>
      rw [ha] at hok
      cases entry with
      | none =>
        exact ih m hok (fun b hb => hnone b (List.mem_cons_of_mem a hb))
      | some kv =>
        have hrec := ih (fun x => if x = kv.1 then some kv.2 else m x) hok
          (fun b hb => hnone b (List.mem_cons_of_mem a hb))
        rw [hrec]
        have hk : k ≠ kv.1 := by
          intro hEq
          exact hnone a (List.mem_cons_self _ _) kv.2 (by rw [ha, hEq])
        dsimp only
        rw [if_neg hk]

/-- Inversion of a successful announcement-block entry: it can only arise
    from `enabled`, `prompt` and `prompt/id` children with `enabled` text. -/
theorem annEntry_ok_some {a : Element} {k : Option String} {v : Bool}
    (h : annEntry a = .ok (some (k, v))) :
    ∃ en pr pid s, a.findChild "enabled" = some en ∧ a.findChild "prompt" = some pr ∧
      pr.findChild "id" = some pid ∧ pid.text = k ∧ en.text = some s ∧ v = annFlag s := by
  unfold annEntry at h
  cases hen : a.findChild "enabled" with
  | none => rw [hen] at h; simp at h
  | some en =>
    cases hpr : a.findChild "prompt" with
    | none => rw [hen, hpr] at h; simp at h
    | some pr =>
      rw [hen, hpr] at h
      dsimp only at h
      cases hpid : pr.findChild "id" with
      | none => rw [hpid] at h; simp at h
      | some pid =>
        rw [hpid] at h
        dsimp only at h
        cases htx : en.text with
        | none => rw [htx] at h; simp at h
        | some s =>
          rw [htx] at h
          simp only [Except.ok.injEq, Option.some.injEq, Prod.mk.injEq] at h
          exact ⟨en, pr, pid, s, rfl, rfl, hpid, h.1, htx, h.2.symm⟩

/-- Provenance of every entry of the announcement map: it is either inherited
    from the initial map or written by some block of the scanned list, with
    the flag computed from that block's `enabled` text. -/
theorem annScanList_entry_src (bs : List Element) (m M : Option String → Option Bool)
    (hok : annScanList bs m = .ok M) (k : Option String) (b : Bool) (hMk : M k = some b) :
    m k = some b ∨
      ∃ a ∈ bs, ∃ en pr pid s, a.findChild "enabled" = some en ∧
        a.findChild "prompt" = some pr ∧ pr.findChild "id" = some pid ∧
        pid.text = k ∧ en.text = some s ∧ b = annFlag s := by
  induction bs generalizing m with
  | nil =>
    simp only [annScanList, Except.ok.injEq] at hok
    left
    rw [hok]
    exact hMk
  | cons a rest ih =>
    simp only [annScanList] at hok
    cases ha : annEntry a with
    | error e => rw [ha] at hok; simp at hok
    | ok entry =>
      rw [ha] at hok
      cases entry with
      | none =>
        rcases ih m hok with hm | ⟨a', ha', rest'⟩
        · left; exact hm
        · right; exact ⟨a', List.mem_cons_of_mem a ha', rest'⟩
      | some kv =>
        rcases ih (fun x => if x = kv.1 then some kv.2 else m x) hok with hm | ⟨a', ha', rest'⟩
        · by_cases hk : k = kv.1
          · right
            rw [if_pos hk] at hm
            obtain ⟨en, pr, pid, s, h1, h2, h3, h4, h5, h6⟩ :=
              annEntry_ok_some (by rw [ha, hk] : annEntry a = .ok (some (k, kv.2)))
            refine ⟨a, List.mem_cons_self _ _, en, pr, pid, s, h1, h2, h3, h4, h5, ?_⟩
            have : kv.2 = b := by simpa using hm
            rw [← this]
            exact h6
          · left
            rw [if_neg hk] at hm
            exact hm
        · right; exact ⟨a', List.mem_cons_of_mem a ha', rest'⟩

theorem mem_locPattern1 (m p : Element) : p ∈ locPattern1 m ↔ isShape1 m p := by
  simp only [locPattern1, Element.findallDesc, childrenTag, List.mem_flatMap, List.mem_filter,
    isShape1, beq_iff_eq]
  tauto

theorem mem_locPattern2 (m p : Element) : p ∈ locPattern2 m ↔ isShape2 m p := by
  simp only [locPattern2, Element.findallDesc, childrenTag, List.mem_flatMap, List.mem_filter,
    isShape2, beq_iff_eq]
  tauto

theorem mem_locPattern3 (m p : Element) : p ∈ locPattern3 m ↔ isShape3 m p := by
  simp only [locPattern3, Element.findallDesc, childrenTag, List.mem_flatMap, List.mem_filter,
    isShape3, beq_iff_eq]
  tauto

theorem mem_locPattern4 (m p : Element) : p ∈ locPattern4 m ↔ isShape4 m p := by
  simp only [locPattern4, Element.findallDesc, childrenTag, List.mem_flatMap, List.mem_filter,
    isShape4, beq_iff_eq]
  tauto

theorem mem_locPattern5 (m p : Element) : p ∈ locPattern5 m ↔ isShape5 m p := by
  simp only [locPattern5, Element.findallDesc, childrenTag, List.mem_flatMap, List.mem_filter,
    isShape5, beq_iff_eq]
  tauto

theorem length_filterMap_eq {α β : Type} (f : α → Option β) (l : List α) :
    (l.filterMap f).length = (l.filter (fun x => (f x).isSome)).length := by
  induction l with
  | nil => rfl
  | cons x xs ih =>
    cases hf : f x with
    | none => simp [List.filterMap_cons, List.filter_cons, hf, ih]
    | some b => simp [List.filterMap_cons, List.filter_cons, hf, ih]

theorem mkRecord_isSome (mt : Option String) (annM : Option String → Option Bool)
    (p : Element) :
    (mkRecord mt annM p).isSome
      = ((p.findChild "id").isSome && (p.findChild "name").isSome) := by
  unfold mkRecord
  cases p.findChild "id" <;> cases p.findChild "name" <;> rfl

theorem promptsList_eq_nil {root : Element} (annM : Option String → Option Bool)
    (h : containsPromptShape root = false) :
    promptsList root annM = [] := by
  unfold promptsList
  rw [List.flatMap_eq_nil_iff]
  intro m hm
  have hb : (locatePrompts m).isEmpty = true := by
    simpa using List.any_eq_false.mp h m hm
  have hloc : locatePrompts m = [] := List.isEmpty_iff.mp hb
  unfold moduleRecords
  cases m.findChild "moduleName" with
  | none => rfl
  | some mn => rw [hloc]; rfl

theorem isDisconnected_iff (mc : ModuleConn) :
    isDisconnected mc = true ↔
      (outboundRefs mc ≠ [] ∧ ∀ r ∈ outboundRefs mc, r = mc.module_id) := by
  unfold isDisconnected
  rw [Bool.and_eq_true]
  constructor
  · rintro ⟨h1, h2⟩
    constructor
    · intro hnil
      rw [hnil] at h1
      simp at h1
    · intro r hr
      simpa using List.all_eq_true.mp h2 r hr
  · rintro ⟨h1, h2⟩
    constructor
    · cases hout : outboundRefs mc with
      | nil => exact absurd hout h1
      | cons a as => rfl
    · exact List.all_eq_true.mpr (fun r hr => by simpa using h2 r hr)

theorem annFlag_iff (s : String) : annFlag s = true ↔ pyLower s = "true" := by
  simp [annFlag]

/-- C1: a located prompt reference whose `prompt_id` has no entry in the
    announcement map is classified as type `Play`, with status `InUse` iff the
    owning module is not disconnected, where a module is disconnected iff it
    has at least one outbound reference and all outbound references equal its
    own identifier (and a module with zero outbound references is never
    disconnected). -/
theorem C1_play_status (annM : Option String → Option Bool) (pid : Option String)
    (mc : ModuleConn) (h : annM pid = none) :
    (classifyPrompt (annM pid) (isDisconnected mc)).1 = PromptType.Play
    ∧ ((classifyPrompt (annM pid) (isDisconnected mc)).2 = PromptStatus.InUse
        ↔ ¬(outboundRefs mc ≠ [] ∧ ∀ r ∈ outboundRefs mc, r = mc.module_id))
    ∧ (outboundRefs mc = [] →
        (classifyPrompt (annM pid) (isDisconnected mc)).2 = PromptStatus.InUse) := by
  rw [h]
  unfold classifyPrompt
  by_cases hd : isDisconnected mc = true
  · have hab := (isDisconnected_iff mc).mp hd
    rw [hd]
    refine ⟨rfl, ?_, ?_⟩
    · constructor
      · intro him
        simp at him
      · intro hneg
        exact absurd hab hneg
    · intro hnil
      exact absurd hab (fun h' => h'.1 hnil)
  · have hd' : isDisconnected mc = false := by simpa using hd
    have hnab : ¬(outboundRefs mc ≠ [] ∧ ∀ r ∈ outboundRefs mc, r = mc.module_id) := by
      intro hab
      rw [(isDisconnected_iff mc).mpr hab] at hd'
      simp at hd'
    rw [hd']
    exact ⟨rfl, ⟨fun _ => hnab, fun _ => rfl⟩, fun _ => rfl⟩

theorem C1_witness :
    (fun _ => (none : Option Bool)) (some "101") = none ∧
    ((classifyPrompt ((fun _ => (none : Option Bool)) (some "101"))
        (isDisconnected ⟨"M1", ["M1"], [], []⟩)).1 = PromptType.Play
      ∧ ((classifyPrompt ((fun _ => (none : Option Bool)) (some "101"))
            (isDisconnected ⟨"M1", ["M1"], [], []⟩)).2 = PromptStatus.InUse
          ↔ ¬(outboundRefs ⟨"M1", ["M1"], [], []⟩ ≠ [] ∧
              ∀ r ∈ outboundRefs ⟨"M1", ["M1"], [], []⟩, r = "M1"))
      ∧ (outboundRefs ⟨"M1", ["M1"], [], []⟩ = [] →
          (classifyPrompt ((fun _ => (none : Option Bool)) (some "101"))
            (isDisconnected ⟨"M1", ["M1"], [], []⟩)).2 = PromptStatus.InUse)) :=
  ⟨rfl, C1_play_status (fun _ => none) (some "101") ⟨"M1", ["M1"], [], []⟩ rfl⟩

/-- C2: whenever extraction returns a record list, no two records in it share
    the same `prompt_id`. -/
theorem C2_dedup_invariant (inp : Option Element) (out : List PromptRec)
    (h : extract_prompts inp = .ok out) :
    out.Pairwise (fun a b => a.ID ≠ b.ID) := by
  cases inp with
  | none => simp [extract_prompts] at h
  | some root =>
    obtain ⟨annM, _, hout⟩ := extract_ok_elim h
    rw [hout]
    exact dedupLoop_pairwise _ _

theorem C2_witness :
    extract_prompts (some wdocA) = .ok woutA ∧
      woutA.Pairwise (fun a b => a.ID ≠ b.ID) :=
  ⟨rfl, C2_dedup_invariant (some wdocA) woutA rfl⟩

/-- C4: when several announcement blocks of one document carry the same
    prompt id, the announcement map ends up holding the flag of the block
    scanned last in document order (last-write-wins, no error). -/
theorem C4_last_write_wins (root a : Element) (bs₁ bs₂ : List Element)
    (k : Option String) (v : Bool)
    (hsplit : annBlocks root = bs₁ ++ a :: bs₂)
    (ha : annEntry a = .ok (some (k, v)))
    (hafter : ∀ b ∈ bs₂, ∀ v', annEntry b ≠ .ok (some (k, v')))
    (hok : isOkE (annScanList (annBlocks root) (fun _ => none)) = true) :
    (annScanList (annBlocks root) (fun _ => none)).map (fun M => M k)
      = .ok (some v) := by
  cases hscan : annScanList (annBlocks root) (fun _ => none) with
  | error e =>
    rw [hscan] at hok
    simp [isOkE] at hok
  | ok M =>
    have hscan' := hscan
    rw [hsplit, annScanList_append] at hscan'
    cases h1 : annScanList bs₁ (fun _ => none) with
    | error e =>
      rw [h1] at hscan'
      simp at hscan'
    | ok m₁ =>
      rw [h1] at hscan'
      simp only [annScanList, ha] at hscan'
      have hMk : M k = some v := by
        rw [annScanList_agree bs₂ _ M k hscan' hafter]
        rw [if_pos rfl]
      simp [Except.map, hMk]

theorem C4_witness :
    annBlocks wdocA =
        [(annBlocks wdocA).get ⟨0, by decide⟩] ++
          (annBlocks wdocA).get ⟨1, by decide⟩ :: [(annBlocks wdocA).get ⟨2, by decide⟩] ∧
      annEntry ((annBlocks wdocA).get ⟨1, by decide⟩) = .ok (some (some "9", true)) ∧
      isOkE (annScanList (annBlocks wdocA) (fun _ => none)) = true ∧
      (annScanList (annBlocks wdocA) (fun _ => none)).map (fun M => M (some "9"))
        = .ok (some true) := by
  refine ⟨rfl, rfl, rfl, ?_⟩
  refine C4_last_write_wins wdocA ((annBlocks wdocA).get ⟨1, by decide⟩)
    [(annBlocks wdocA).get ⟨0, by decide⟩] [(annBlocks wdocA).get ⟨2, by decide⟩]
    (some "9") true rfl rfl ?_ rfl
  intro b hb v' hEq
  have hbe : b = (annBlocks wdocA).get ⟨2, by decide⟩ := by
    simpa using hb
  rw [hbe] at hEq
  have : annEntry ((annBlocks wdocA).get ⟨2, by decide⟩) = .ok none := rfl
  rw [this] at hEq
  simp at hEq

/-- C5: a located prompt reference whose `prompt_id` has an entry in the
    announcement map is classified as type `Announcement`, with status
    `Enabled` iff the mapped flag is true, else `Disabled`; and in the
    extraction records the `Enabled` field is exactly the announcement-map
    lookup of the record's id. -/
theorem C5_announcement_status (annM : Option String → Option Bool) (pid : Option String)
    (flag : Bool) (disc : Bool) (h : annM pid = some flag) :
    classifyPrompt (annM pid) disc
        = (PromptType.Announcement,
            if flag then PromptStatus.Enabled else PromptStatus.Disabled)
    ∧ ((classifyPrompt (annM pid) disc).2 = PromptStatus.Enabled ↔ flag = true)
    ∧ (∀ m r, r ∈ moduleRecords annM m → r.Enabled = annM r.ID) := by
  rw [h]
  unfold classifyPrompt
  refine ⟨rfl, ?_, ?_⟩
  · cases flag with
    | false => simp
    | true => simp
  · intro m r hr
    unfold moduleRecords at hr
    cases hmn : m.findChild "moduleName" with
    | none =>
      rw [hmn] at hr
      simp at hr
    | some mn =>
      rw [hmn] at hr
      obtain ⟨p, hp, hmk⟩ := List.mem_filterMap.mp hr
      unfold mkRecord at hmk
      cases hi : p.findChild "id" with
      | none =>
        rw [hi] at hmk
        simp at hmk
      | some i =>
        cases hn : p.findChild "name" with
        | none =>
          rw [hi, hn] at hmk
          simp at hmk
        | some n =>
          rw [hi, hn] at hmk
          simp only [Option.some.injEq] at hmk
          rw [← hmk]

theorem C5_witness :
    (fun x => if x = some "9" then some true else (none : Option Bool)) (some "9")
        = some true ∧
    (classifyPrompt ((fun x => if x = some "9" then some true else (none : Option Bool))
          (some "9")) false
        = (PromptType.Announcement,
            if true then PromptStatus.Enabled else PromptStatus.Disabled)
      ∧ ((classifyPrompt ((fun x => if x = some "9" then some true else (none : Option Bool))
            (some "9")) false).2 = PromptStatus.Enabled ↔ true = true)
      ∧ (∀ m r, r ∈ moduleRecords
            (fun x => if x = some "9" then some true else (none : Option Bool)) m →
          r.Enabled = (fun x => if x = some "9" then some true else (none : Option Bool)) r.ID)) :=
  ⟨rfl, C5_announcement_status (fun x => if x = some "9" then some true else none)
    (some "9") true false rfl⟩

/-- C3: a successful extraction's output is sorted by prompt name ascending;
    the name-sorted scan order is a permutation of the classified stream that
    keeps records of equal name in first-seen (stream) order; and each output
    record is the first record with its `prompt_id` in that name-sorted scan
    order. -/
theorem C3_ordering (root : Element) (cls out : List PromptRec)
    (hcls : classifiedStream root = .ok cls)
    (hout : extract_prompts (some root) = .ok out) :
    out.Pairwise (fun a b => recLe a b = true)
    ∧ (sortRecs cls).Perm cls
    ∧ (∀ nm, (sortRecs cls).filter (fun s => s.Name == nm)
        = cls.filter (fun s => s.Name == nm))
    ∧ (∀ r ∈ out, ∃ l₁ l₂, sortRecs cls = l₁ ++ r :: l₂ ∧ ∀ s ∈ l₁, s.ID ≠ r.ID) := by
  obtain ⟨annM, hscan, hdedup⟩ := extract_ok_elim hout
  unfold classifiedStream at hcls
  rw [hscan] at hcls
  simp only [Except.ok.injEq] at hcls
  subst hcls
  refine ⟨?_, sortRecs_perm _, fun nm => sortRecs_filter_name nm _, ?_⟩
  · rw [hdedup]
    exact (sortRecs_pairwise _).sublist (dedupLoop_sublist _ _)
  · intro r hr
    rw [hdedup] at hr
    obtain ⟨_, l₁, l₂, hsplit, hne⟩ := dedupLoop_mem _ _ r hr
    exact ⟨l₁, l₂, hsplit, hne⟩

theorem C3_witness :
    classifiedStream wdocA = .ok wclsA ∧
    extract_prompts (some wdocA) = .ok woutA ∧
    (woutA.Pairwise (fun a b => recLe a b = true)
      ∧ (sortRecs wclsA).Perm wclsA
      ∧ (∀ nm, (sortRecs wclsA).filter (fun s => s.Name == nm)
          = wclsA.filter (fun s => s.Name == nm))
      ∧ (∀ r ∈ woutA, ∃ l₁ l₂, sortRecs wclsA = l₁ ++ r :: l₂ ∧
          ∀ s ∈ l₁, s.ID ≠ r.ID)) :=
  ⟨rfl, rfl, C3_ordering wdocA wclsA woutA rfl rfl⟩

/-- C6: for a module with a name, the locator's results are exactly the
    prompt elements standing in one of the five nesting shapes to the module;
    every located element with both `id` and `name` children contributes its
    record, and located elements missing either child contribute nothing (the
    record count equals the count of located elements having both). -/
theorem C6_locator_completeness (m mn : Element) (annM : Option String → Option Bool)
    (hmn : m.findChild "moduleName" = some mn) :
    (∀ p, p ∈ locatePrompts m ↔
        (isShape1 m p ∨ isShape2 m p ∨ isShape3 m p ∨ isShape4 m p ∨ isShape5 m p))
    ∧ (∀ p, p ∈ locatePrompts m → ∀ i n, p.findChild "id" = some i →
        p.findChild "name" = some n →
        (⟨i.text, n.text, mn.text, annM i.text⟩ : PromptRec) ∈ moduleRecords annM m)
    ∧ (moduleRecords annM m).length
        = ((locatePrompts m).filter
            (fun p => (p.findChild "id").isSome && (p.findChild "name").isSome)).length := by
  refine ⟨?_, ?_, ?_⟩
  · intro p
    unfold locatePrompts
    simp only [List.mem_append]
    rw [mem_locPattern1, mem_locPattern2, mem_locPattern3, mem_locPattern4, mem_locPattern5]
    tauto
  · intro p hp i n hi hn
    unfold moduleRecords
    rw [hmn]
    refine List.mem_filterMap.mpr ⟨p, hp, ?_⟩
    unfold mkRecord
    rw [hi, hn]
  · unfold moduleRecords
    rw [hmn, length_filterMap_eq]
    exact congrArg List.length
      (List.filter_congr (fun p _ => mkRecord_isSome mn.text annM p))

theorem C6_witness :
    wmodA.findChild "moduleName" = some (el "moduleName" (some "Welcome") []) ∧
    ((∀ p, p ∈ locatePrompts wmodA ↔
        (isShape1 wmodA p ∨ isShape2 wmodA p ∨ isShape3 wmodA p ∨ isShape4 wmodA p ∨
          isShape5 wmodA p))
      ∧ (∀ p, p ∈ locatePrompts wmodA → ∀ i n, p.findChild "id" = some i →
          p.findChild "name" = some n →
          (⟨i.text, n.text, (el "moduleName" (some "Welcome") []).text,
            (fun _ => (none : Option Bool)) i.text⟩ : PromptRec)
            ∈ moduleRecords (fun _ => (none : Option Bool)) wmodA)
      ∧ (moduleRecords (fun _ => (none : Option Bool)) wmodA).length
          = ((locatePrompts wmodA).filter
              (fun p => (p.findChild "id").isSome && (p.findChild "name").isSome)).length) :=
  ⟨rfl, C6_locator_completeness wmodA (el "moduleName" (some "Welcome") [])
    (fun _ => none) rfl⟩

/-- C7 counterexample: `exDoc7` is well-formed XML containing none of the
    five recognized prompt shapes, yet extraction raises `AttributeError`
    (its announcement scan hits an `enabled` element with no text) instead of
    returning the empty list the claim promises. -/
theorem C7_counterexample :
    containsPromptShape exDoc7 = false ∧
    extract_prompts (some exDoc7) = .error .attributeError ∧
    isOkE (extract_prompts (some exDoc7)) = false :=
  ⟨rfl, rfl, rfl⟩

/-- C7 (amended): input that is not well-formed XML fails with `ParseError`
    and no record list; a well-formed document containing none of the five
    recognized prompt shapes yields the empty list provided the announcement
    scan itself does not raise (without that proviso `C7_counterexample`
    refutes the claim). -/
theorem C7_amended :
    (extract_prompts none = .error .parseError) ∧
    (∀ root, containsPromptShape root = false →
      isOkE (annScanList (annBlocks root) (fun _ => none)) = true →
      extract_prompts (some root) = .ok []) := by
  refine ⟨rfl, ?_⟩
  intro root hshape hok
  simp only [extract_prompts]
  unfold extractFromTree
  cases hscan : annScanList (annBlocks root) (fun _ => none) with
  | error e =>
    rw [hscan] at hok
    simp [isOkE] at hok
  | ok annM =>
    dsimp only
    rw [promptsList_eq_nil annM hshape]
    rfl

theorem C7_witness :
    containsPromptShape wdocC = false ∧
    isOkE (annScanList (annBlocks wdocC) (fun _ => none)) = true ∧
    extract_prompts (some wdocC) = .ok [] :=
  ⟨rfl, rfl, C7_amended.2 wdocC rfl rfl⟩

/-- C8: every record of a successful extraction carries, under the
    (spec-modelled) fixed suffix convention, the derived audio filename equal
    to its prompt name followed by the exact suffix ".wav". -/
theorem C8_filename (inp : Option Element) (out : List PromptRec)
    (hok : extract_prompts inp = .ok out) :
    ∀ r ∈ out, recFilename r = r.Name.map (fun n => n ++ ".wav")
      ∧ ∀ n, r.Name = some n → recFilename r = some (n ++ ".wav") := by
  intro r _
  constructor
  · rfl
  · intro n hn
    unfold recFilename
    rw [hn]
    rfl

theorem C8_witness :
    extract_prompts (some wdocA) = .ok woutA ∧
    ∀ r ∈ woutA, recFilename r = r.Name.map (fun n => n ++ ".wav")
      ∧ ∀ n, r.Name = some n → recFilename r = some (n ++ ".wav") :=
  ⟨rfl, C8_filename (some wdocA) woutA rfl⟩

/-- C9: extraction is not total on well-formed XML: on `exDoc9` (a well-formed
    flow document whose announcement block has an `enabled` element with no
    text) it raises `AttributeError`, which is not a `ParseError` and not a
    returned result. -/
theorem C9_not_total :
    extract_prompts (some exDoc9) = .error .attributeError ∧
    isOkE (extract_prompts (some exDoc9)) = false ∧
    (PyErr.attributeError == PyErr.parseError) = false :=
  ⟨rfl, rfl, rfl⟩

/-- C10: every entry of the announcement map originates from a block whose
    `enabled` text `s` yields the flag `annFlag s`, and that flag is true iff
    `s` lowercased equals "true" (any other text gives false). -/
theorem C10_flag_semantics (root : Element) (k : Option String) (b : Bool)
    (h : (annScanList (annBlocks root) (fun _ => none)).map (fun M => M k)
      = .ok (some b)) :
    ∃ a ∈ annBlocks root, ∃ en pr pid s,
      a.findChild "enabled" = some en ∧ a.findChild "prompt" = some pr ∧
      pr.findChild "id" = some pid ∧ pid.text = k ∧ en.text = some s ∧
      b = annFlag s ∧ (b = true ↔ pyLower s = "true") := by
  cases hscan : annScanList (annBlocks root) (fun _ => none) with
  | error e =>
    rw [hscan] at h
    simp [Except.map] at h
  | ok M =>
    rw [hscan] at h
    simp only [Except.map, Except.ok.injEq] at h
    rcases annScanList_entry_src (annBlocks root) _ M hscan k b h with
      hm | ⟨a, ha, en, pr, pid, s, h1, h2, h3, h4, h5, h6⟩
    · simp at hm
    · refine ⟨a, ha, en, pr, pid, s, h1, h2, h3, h4, h5, h6, ?_⟩
      rw [h6]
      exact annFlag_iff s

theorem C10_witness :
    (annScanList (annBlocks wdocA) (fun _ => none)).map (fun M => M (some "9"))
        = .ok (some true) ∧
    ∃ a ∈ annBlocks wdocA, ∃ en pr pid s,
      a.findChild "enabled" = some en ∧ a.findChild "prompt" = some pr ∧
      pr.findChild "id" = some pid ∧ pid.text = some "9" ∧ en.text = some s ∧
      true = annFlag s ∧ (true = true ↔ pyLower s = "true") :=
  ⟨rfl, C10_flag_semantics wdocA (some "9") true rfl⟩
